import Mathlib

/-!
Verification of the tllama orchestration layer: the discovery engine
(`src/discover.rs`), the model pool (`src/api/pool.rs`), the engine backends
(`src/engine/hf.rs`, `src/engine/llama_cpp.rs`) and the two HTTP dialects
(`src/api/tlama_api.rs`, `src/api/openai.rs`).

The Rust code is shallowly embedded: the filesystem is abstracted into plain
data (lists of path components, file byte contents), the subprocess token
stream of the Transformers backend into a list of daemon messages, and the
interleaving of concurrent `get_model` callers into an explicit schedule.
Every definition mirrors the corresponding Rust function; doc comments name
the source location.
-/

namespace Tllama

/-! ## Glob matching

`discover.rs` matches directory features with the `glob` crate
(`Pattern::matches` for bare names, `glob::glob` for path patterns).  The
patterns used by the code (`manifests`, `blobs`, `blobs/sha256-*`,
`*/blobs`, `snapshots/*/config.json`, ...) only involve literal characters
and `*`; `*` never crosses a path separator, so path patterns are matched
component by component.  `globMatch` is the single-component matcher. -/

def globMatch : List Char → List Char → Bool
  | [], s => s.isEmpty
  | '*' :: ps, s => s.tails.any (fun t => globMatch ps t)
  | p :: ps, s =>
    match s with
    | [] => false
    | c :: cs => (p == '?' || p == c) && globMatch ps cs

/-- Splitting a feature pattern at `/`, as `check_path_feature` does when it
builds the full glob pattern (`discover.rs:566`). -/
def splitSlash : List Char → List (List Char)
  | [] => [[]]
  | c :: cs =>
    if c = '/' then [] :: splitSlash cs
    else
      match splitSlash cs with
      | [] => [[c]]
      | r :: rs => (c :: r) :: rs

/-! ## Candidate-directory abstraction

A candidate directory is modelled by the relative paths (component lists) of
the entries it contains.  A path "exists" when it is a nonempty prefix of a
listed entry (parent directories of a listed entry exist on disk). -/

structure FsDir where
  paths : List (List String)
  deriving DecidableEq

/-- All existing relative paths of the directory: every nonempty prefix of a
listed entry. -/
def FsDir.existingPaths (fs : FsDir) : List (List String) :=
  fs.paths.flatMap (fun q => q.inits.filter (fun p => !p.isEmpty))

/-- The names of the direct children of the directory, as enumerated by
`fs::read_dir` in `check_simple_feature` (`discover.rs:549`). -/
def FsDir.rootNames (fs : FsDir) : List String :=
  fs.paths.filterMap List.head?

/-- `check_simple_feature` (`discover.rs:542`): some direct child name
matches the glob pattern. -/
def check_simple_feature (fs : FsDir) (pattern : String) : Bool :=
  fs.rootNames.any (fun nm => globMatch pattern.toList nm.toList)

/-- Component-wise glob match of a relative path, the semantics of
`glob::glob` on the patterns used here (no `**`, `*` stays inside one
component). -/
def matchComponents (pats : List (List Char)) (p : List String) : Bool :=
  pats.length == p.length &&
    (List.zip pats p).all (fun pr => globMatch pr.1 pr.2.toList)

/-- `check_path_feature` (`discover.rs:566`): the pattern is split at `/`
and some existing path of the directory matches it. -/
def check_path_feature (fs : FsDir) (feature : String) : Bool :=
  fs.existingPaths.any (matchComponents (splitSlash feature.toList))

/-- `check_single_feature` (`discover.rs:531`): dispatch on whether the
feature contains a path separator. -/
def check_single_feature (fs : FsDir) (feature : String) : Bool :=
  if feature.toList.contains '/' then check_path_feature fs feature
  else check_simple_feature fs feature

/-- `directory_has_features` (`discover.rs:513`): the directory must exhibit
ALL the listed features. -/
def directory_has_features (fs : FsDir) (features : List String) : Bool :=
  features.all (check_single_feature fs)

/-- The Ollama-layout test performed by `discover()` (`discover.rs:68`). -/
def isOllamaLayout (fs : FsDir) : Bool :=
  directory_has_features fs ["manifests", "blobs", "blobs/sha256-*"]

/-- The hub-cache-layout test performed by `discover()` (`discover.rs:73`). -/
def isHubCacheLayout (fs : FsDir) : Bool :=
  directory_has_features fs ["*/blobs", "*/refs", "*/snapshots"]

/-- The classification the SPEC describes for the Ollama layout: `manifests/`
present and EITHER a `blobs/` entry OR an entry matching `blobs/sha256-*`
(spec §4.1 item 1).  Kept separate from `isOllamaLayout`, which embeds the
source. -/
def specOllamaLayout (fs : FsDir) : Bool :=
  check_single_feature fs "manifests" &&
    (check_single_feature fs "blobs" || check_single_feature fs "blobs/sha256-*")

/-! ## Model records and the generic recursive walk -/

/-- `ModelType` (`discover.rs:22`). -/
inductive ModelType where
  | Gguf
  | Transformers
  deriving DecidableEq

/-- `Model` (`discover.rs:27`).  Paths are component lists. -/
structure Model where
  format : ModelType
  path : List String
  name : String
  size : Nat
  template : Option String
  deriving DecidableEq

/-- A regular file seen by the generic walk: its path relative to the
candidate directory, its metadata length, and its content bytes. -/
structure FileEntry where
  path : List String
  size : Nat
  bytes : List Nat
  deriving DecidableEq

/-- `Path::file_stem` on a file name: everything before the last `.`,
the whole name when there is no dot or the only dot is the leading one. -/
def fileStem (cs : List Char) : List Char :=
  match ((List.range cs.length).filter (fun i => cs.getD i ' ' = '.')).getLast? with
  | none => cs
  | some 0 => cs
  | some i => cs.take i

/-- The file name of a walk entry (its last path component). -/
def FileEntry.fileName (f : FileEntry) : String :=
  f.path.getLast?.getD ""

/-- `ModelDiscover::check_gguf_format` (`discover.rs:359`): the first four
bytes are the literal `GGUF` magic (the read fails on shorter files). -/
def check_gguf_format (f : FileEntry) : Bool :=
  f.bytes.take 4 == [0x47, 0x47, 0x55, 0x46] && 4 ≤ f.bytes.length

/-- `ModelDiscover::check_safetensors_format` (`discover.rs:369`): the first
eight bytes, read little-endian, give a metadata length `L ≤ 50 MB`; the next
`L` bytes must be available and parse as JSON.  UTF-8 decoding and JSON
parsing are performed by external libraries and are abstracted into the
`validJson` oracle. -/
def check_safetensors_format (validJson : List Nat → Bool) (f : FileEntry) : Bool :=
  match f.bytes with
  | b0 :: b1 :: b2 :: b3 :: b4 :: b5 :: b6 :: b7 :: rest =>
    let len := b0 + b1 * 2 ^ 8 + b2 * 2 ^ 16 + b3 * 2 ^ 24 + b4 * 2 ^ 32 +
      b5 * 2 ^ 40 + b6 * 2 ^ 48 + b7 * 2 ^ 56
    if len > 50 * 1024 * 1024 then false
    else len ≤ rest.length && validJson (rest.take len)
  | _ => false

/-- The generic recursive walk of `discover()` (`discover.rs:78-117`) over a
candidate directory, in curated mode (`scan_all_paths = false`, so
`check_exclude` always returns `false`): files below 50 MiB are skipped,
the rest are classified by content sniff; a matched file contributes a
record whose `path` is the CANDIDATE directory, whose `name` is the file
stem and whose `size` is the file length. -/
def discoverStep (validJson : List Nat → Bool) (candidate : List String)
    (acc : List Model) (f : FileEntry) : List Model :=
  if f.size < 50 * 1024 * 1024 then acc
  else if check_gguf_format f then
    acc ++ [{ format := .Gguf, path := candidate,
              name := String.mk (fileStem f.fileName.toList),
              size := f.size, template := none }]
  else if check_safetensors_format validJson f then
    acc ++ [{ format := .Transformers, path := candidate,
              name := String.mk (fileStem f.fileName.toList),
              size := f.size, template := none }]
  else acc

/-- The walk over every regular file below the candidate directory. -/
def discoverGeneric (validJson : List Nat → Bool) (candidate : List String)
    (files : List FileEntry) : List Model :=
  files.foldl (discoverStep validJson candidate) []

/-! ## Hub-cache discovery (`discover_hf_models`, `discover.rs:240-357`)

A hub model directory is modelled structurally: its entry name, whether it
is a directory, and its snapshots.  The tokenizer config file of a snapshot
is either absent, unreadable, invalid JSON, or parsed JSON carrying an
optional `chat_template` field and an optional nested
`tokenizer.chat_template` field. -/

inductive TokenizerConfig where
  | missing
  | unreadable
  | invalidJson
  | parsed (chatTemplate : Option String) (nestedTemplate : Option String)
  deriving DecidableEq

structure Snapshot where
  name : String
  isDir : Bool
  hasConfigJson : Bool
  tokenizerConfig : TokenizerConfig
  fileCount : Nat
  totalSize : Nat
  deriving DecidableEq

structure HubModelDir where
  name : String
  isDir : Bool
  snapshots : List Snapshot
  deriving DecidableEq

/-- `str::replace("--", "/")`: leftmost, non-overlapping. -/
def replaceDashDash : List Char → List Char
  | '-' :: '-' :: rest => '/' :: replaceDashDash rest
  | c :: rest => c :: replaceDashDash rest
  | [] => []

/-- Position of the first `--` in a char list, if any (`splitn(2, "--")`). -/
def firstDashDash : List Char → Option Nat
  | '-' :: '-' :: _ => some 0
  | _ :: rest => (firstDashDash rest).map (· + 1)
  | [] => none

/-- Name decoding of `discover_hf_models` (`discover.rs:262-270`): strip
`models--`, split once at the first `--` into owner and repo, replace the
remaining `--` of the repo part by `/`. -/
def parseHubName (entryName : String) : String :=
  let stripped := entryName.toList.drop "models--".length
  match firstDashDash stripped with
  | some i =>
    String.mk (stripped.take i ++ '/' :: replaceDashDash (stripped.drop (i + 2)))
  | none => String.mk (replaceDashDash stripped)

/-- Whether the snapshot's `tokenizer_config.json` file exists on disk. -/
def TokenizerConfig.present : TokenizerConfig → Bool
  | .missing => false
  | _ => true

/-- The per-model-directory gate of `discover_hf_models`
(`discover.rs:251-259`): `directory_has_features(model_dir,
["snapshots/*/config.json", "snapshots/*/tokenizer_config.json"])`.  On the
structural model each glob feature holds exactly when SOME snapshot
directory contains the respective file — the two features may be satisfied
by different snapshots. -/
def hubDirGate (d : HubModelDir) : Bool :=
  d.snapshots.any (fun s => s.isDir && s.hasConfigJson) &&
    d.snapshots.any (fun s => s.isDir && s.tokenizerConfig.present)

/-- Template extraction for one snapshot (`discover.rs:288-308`): the
`chat_template` field, falling back to the nested `tokenizer.chat_template`
field; `none` when the file is absent, unreadable or not JSON. -/
def snapshotChatTemplate (s : Snapshot) : Option String :=
  match s.tokenizerConfig with
  | .parsed ct nested => ct.orElse (fun _ => nested)
  | _ => none

/-- The record produced for one snapshot of a gated model directory
(`discover.rs:278-353`), `none` when the snapshot is skipped.
`defaultTemplate` stands for `crate::template::get_default_template()`
(`template/adapter.rs:147`), whose text is opaque data here. -/
def hubSnapshotRecord (defaultTemplate : String) (dirName : String)
    (s : Snapshot) : Option Model :=
  if !s.isDir then none
  else
    let effective := (snapshotChatTemplate s).getD defaultTemplate
    if s.fileCount = 0 || s.totalSize < 50 * 1024 * 1024 then none
    else
      some { format := .Transformers,
             path := [dirName, "snapshots", s.name],
             name := parseHubName dirName,
             size := s.totalSize,
             template := some effective }

/-- `discover_hf_models` (`discover.rs:240`): for each `models--*` directory
that passes the feature gate, one record per acceptable snapshot. -/
def discover_hf_models (defaultTemplate : String)
    (dirs : List HubModelDir) : List Model :=
  dirs.foldl
    (fun acc d =>
      if d.isDir && "models--".toList.isPrefixOf d.name.toList && hubDirGate d then
        acc ++ d.snapshots.filterMap (hubSnapshotRecord defaultTemplate d.name)
      else acc)
    []

/-! ## The Transformers backend (`engine/hf.rs`)

`TransformersEngine::infer` (`hf.rs:329-387`) registers a closure with the
Python daemon reader and blocks until a `done`/`error` message arrives.  The
daemon's output for one request is modelled as a list of messages; a
`token` message carries the decoded fragment (`json["token"].as_str()`,
defaulting to the empty string). -/

inductive DaemonMsg where
  | token (s : String)
  | done
  | error (e : String)
  deriving DecidableEq

/-- The fragments delivered to the supplied token sink, in order: one call
per `token` message until the first `done`/`error` message flips the
`finished` flag (`hf.rs:355-372`). -/
def sinkFragments : List DaemonMsg → List String
  | [] => []
  | .token s :: rest => s :: sinkFragments rest
  | .done :: _ => []
  | .error _ :: _ => []

/-- `TransformersEngine::infer` (`hf.rs:329-387`), success path: the value
returned to the caller paired with the fragments the token sink received.
The function returns `Ok(req_id)` — the generated request UUID — not the
generated text (`hf.rs:386`). -/
def transformersInfer (reqId : String) (msgs : List DaemonMsg) :
    String × List String :=
  (reqId, sinkFragments msgs)

/-! ## Gateway error mapping and streaming frames
(`api/tlama_api.rs`, `api/openai.rs`)

`ModelPool::get_model` (`pool.rs:20-88`) wraps both failure cases in a
formatted message before the HTTP layer sees them. -/

inductive PoolError where
  | notFound (name inner : String)
  | loadFailed (name inner : String)
  deriving DecidableEq

/-- The `Display` text of the boxed error built in `pool.rs:45-50` and
`pool.rs:64-70`. -/
def poolErrMsg : PoolError → String
  | .notFound name inner =>
    "Model \x27" ++ name ++ "\x27 not found: " ++ inner
  | .loadFailed name inner =>
    "Failed to load model \x27" ++ name ++ "\x27: " ++ inner

/-- An HTTP response, reduced to its status code and the error/text payload
of its JSON body. -/
structure HttpOut where
  status : Nat
  body : String
  deriving DecidableEq

/-- Non-streaming `common_inference` (`tlama_api.rs:47-132`): any
`get_model` error becomes `InternalServerError` (500) with the error text;
an `infer` error becomes 500 with the error text; success is 200 with the
inferred text. -/
def tlamaInferResponse (pool : Except PoolError Unit)
    (infer : Except String String) : HttpOut :=
  match pool with
  | .error e => ⟨500, poolErrMsg e⟩
  | .ok _ =>
    match infer with
    | .ok text => ⟨200, text⟩
    | .error e => ⟨500, e⟩

/-- Non-streaming `create_completion` (`openai.rs:208-357`): any `get_model`
error becomes `BadRequest` (400) with a `Model not found: ` prefix; an
`infer` error becomes 500 with an `Inference error: ` prefix. -/
def openaiCompletionResponse (pool : Except PoolError Unit)
    (infer : Except String String) : HttpOut :=
  match pool with
  | .error e => ⟨400, "Model not found: " ++ poolErrMsg e⟩
  | .ok _ =>
    match infer with
    | .ok text => ⟨200, text⟩
    | .error e => ⟨500, "Inference error: " ++ e⟩

/-- Non-streaming `create_chat_completion` (`openai.rs:359-537`): like
`create_completion`, with a 400 `Template rendering error: ` case between
the pool lookup and the inference call. -/
def openaiChatResponse (pool : Except PoolError Unit)
    (render : Except String String) (infer : Except String String) : HttpOut :=
  match pool with
  | .error e => ⟨400, "Model not found: " ++ poolErrMsg e⟩
  | .ok _ =>
    match render with
    | .error e => ⟨400, "Template rendering error: " ++ e⟩
    | .ok _ =>
      match infer with
      | .ok text => ⟨200, text⟩
      | .error e => ⟨500, "Inference error: " ++ e⟩

/-- One SSE frame of the native dialect (`StreamChunk`, `tlama_api.rs:37`),
reduced to the fields the claims speak about. -/
structure TlamaChunk where
  content : String
  finished : Bool
  finishReason : Option String
  deriving DecidableEq

/-- One SSE frame of the OpenAI dialect (`StreamCompletionChoice` /
`StreamChatCompletionChoice`), reduced likewise. -/
structure OaiChunk where
  content : String
  finishReason : Option String
  deriving DecidableEq

/-- Streaming `common_inference` (`tlama_api.rs:64-122`): one frame per sink
fragment, then — the `infer` result being discarded with `let _ =` — a
final `finish_reason: "stop"` frame, unconditionally. -/
def tlamaStreamFrames (frags : List String) : List TlamaChunk :=
  frags.map (fun t => ⟨t, false, none⟩) ++ [⟨"", true, some "stop"⟩]

/-- Streaming `create_completion` (`openai.rs:238-321`): an initial empty
frame, one frame per sink fragment, then — the `infer` result being
discarded — a final `stop` frame, unconditionally. -/
def openaiCompletionFrames (frags : List String) : List OaiChunk :=
  ⟨"", none⟩ :: frags.map (fun t => ⟨t, none⟩) ++ [⟨"", some "stop"⟩]

/-- Streaming `create_chat_completion` (`openai.rs:422-499`): one frame per
sink fragment; when `infer` returns an error the spawned task RETURNS
before sending the final frame (`openai.rs:466-469`), so the `stop` frame
is emitted only on success. -/
def openaiChatFrames (frags : List String)
    (result : Except String String) : List OaiChunk :=
  frags.map (fun t => ⟨t, none⟩) ++
    (match result with
     | .ok _ => [⟨"", some "stop"⟩]
     | .error _ => [])

/-- Concatenation of the `content`/`text` fields of all frames the
streaming `create_completion` path emits for a daemon trace. -/
def openaiCompletionStreamText (msgs : List DaemonMsg) : String :=
  String.join ((openaiCompletionFrames (sinkFragments msgs)).map (·.content))

/-- The body text of the non-streaming `create_completion` path
(`openai.rs:324-346`): the value `TransformersEngine::infer` returns. -/
def openaiCompletionNonStreamText (reqId : String)
    (msgs : List DaemonMsg) : String :=
  (transformersInfer reqId msgs).1

/-! ## The model pool (`api/pool.rs`)

The pool map is a `HashMap<String, Arc<dyn InferenceEngine>>`; handles are
identified by the order in which backend loads allocate them (each
`LlamaEngine::new` + `Arc::new` yields a fresh identity, modelled by a
counter).  `insert` replaces any existing binding for the key. -/

/-- `HashMap::insert`: bind `k` to `v`, dropping any previous binding. -/
def insertAL (k : String) (v : Nat) (m : List (String × Nat)) :
    List (String × Nat) :=
  (k, v) :: m.filter (fun p => !(p.1 == k))

/-- `HashMap::get`. -/
def lookupAL (k : String) (m : List (String × Nat)) : Option Nat :=
  (m.find? (fun p => p.1 == k)).map (·.2)

/-- Number of bindings a map holds for a key. -/
def countKey (k : String) (m : List (String × Nat)) : Nat :=
  (m.filter (fun p => p.1 == k)).length

/-- Sequential pool state: the map and the next fresh handle identity. -/
structure PoolState where
  map : List (String × Nat)
  nextId : Nat
  deriving DecidableEq

/-- `ModelPool::get_model` (`pool.rs:20-88`), as one sequential call: a hit
returns the cached handle; a miss resolves the name against the discovery
list `disc` (`NotFound` propagates), performs the backend load (modelled as
allocating the fresh identity `nextId`; `loadErr` injects a load failure),
and inserts the new handle. -/
def getModel (disc : List String) (loadErr : Option String)
    (σ : PoolState) (name : String) : Except PoolError (Nat × PoolState) :=
  match lookupAL name σ.map with
  | some h => .ok (h, σ)
  | none =>
    if name ∈ disc then
      match loadErr with
      | some e => .error (.loadFailed name e)
      | none =>
        .ok (σ.nextId, ⟨insertAL name σ.nextId σ.map, σ.nextId + 1⟩)
    else .error (.notFound name ("Model " ++ name ++ " not found"))

/-- `ModelPool::unload_model` (`pool.rs:90-98`): remove the entry under the
lock; the handle itself lives on in its holders. -/
def unloadModel (σ : PoolState) (name : String) : PoolState :=
  ⟨σ.map.filter (fun p => !(p.1 == name)), σ.nextId⟩

/-! ### Concurrent `get_model` callers

`get_model` holds the pool lock for step 1 (lookup) and step 3 (insert) but
NOT for step 2 (discovery + backend load) — `pool.rs:25-32`, `41-70`,
`80-81`.  A caller is therefore a thread taking three atomic steps; a
schedule interleaves them with `unload_model` calls. -/

inductive TPhase where
  /-- before step 1 (the locked lookup) -/
  | ready
  /-- lookup missed; before the unlocked backend load -/
  | loading
  /-- load produced handle `h`; before the locked insert -/
  | inserting (h : Nat)
  /-- returned a handle found in the pool -/
  | doneHit (h : Nat)
  /-- inserted and returned its own freshly loaded handle -/
  | doneIns (h : Nat)
  deriving DecidableEq

def TPhase.isDone : TPhase → Bool
  | .doneHit _ => true
  | .doneIns _ => true
  | _ => false

inductive PoolOp where
  /-- thread `i` performs its next atomic step of `get_model` -/
  | work (i : Nat)
  /-- an `unload_model(name)` call runs -/
  | unload
  deriving DecidableEq

/-- Global state of the concurrent execution: the pool map, the fresh-handle
counter, the number of backend loads performed, and each caller's phase. -/
structure ConcState where
  map : List (String × Nat)
  nextId : Nat
  loads : Nat
  threads : List TPhase
  deriving DecidableEq

/-- One atomic step.  All callers request the same previously-unseen
`name`; a missing thread index is a no-op. -/
def stepOp (name : String) (σ : ConcState) : PoolOp → ConcState
  | .unload => { σ with map := σ.map.filter (fun p => !(p.1 == name)) }
  | .work i =>
    match σ.threads.get? i with
    | none => σ
    | some ph =>
      match ph with
      | .ready =>
        match lookupAL name σ.map with
        | some v => { σ with threads := σ.threads.set i (.doneHit v) }
        | none => { σ with threads := σ.threads.set i .loading }
      | .loading =>
        { σ with nextId := σ.nextId + 1, loads := σ.loads + 1,
                 threads := σ.threads.set i (.inserting σ.nextId) }
      | .inserting v =>
        { σ with map := insertAL name v σ.map,
                 threads := σ.threads.set i (.doneIns v) }
      | .doneHit _ => σ
      | .doneIns _ => σ

/-- Run a schedule from the initial state: empty pool (the name is
previously unseen), `n` concurrent `get_model(name)` callers. -/
def runPool (name : String) (n : Nat) (ops : List PoolOp) : ConcState :=
  ops.foldl (stepOp name) ⟨[], 0, 0, List.replicate n .ready⟩

/-- Phases that have not yet passed the load step; a thread performs its
load exactly when it leaves this set. -/
def TPhase.preLoad : TPhase → Bool
  | .ready => true
  | .loading => true
  | _ => false

/-- Number of callers that have not yet performed their backend load. -/
def poolCredit (σ : ConcState) : Nat :=
  σ.threads.countP (fun ph => ph.preLoad)

/-- Shape invariant of the pool map when all callers request one name: it
is empty or a single binding for that name. -/
def PoolMapInv (name : String) (σ : ConcState) : Prop :=
  σ.map = [] ∨ ∃ v, σ.map = [(name, v)]

/-- Inductive invariant of the concurrent execution: the map shape, the
fixed thread count, and the load accounting `loads + credit ≤ n`. -/
def PoolInv (name : String) (n : Nat) (σ : ConcState) : Prop :=
  PoolMapInv name σ ∧ σ.threads.length = n ∧ σ.loads + poolCredit σ ≤ n

/-- Once some caller has returned, the map is nonempty — valid as long as
no `unload` runs. -/
def PoolDoneInv (name : String) (σ : ConcState) : Prop :=
  (∃ ph ∈ σ.threads, ph.isDone = true) → σ.map ≠ []

/-! ## Glob-matcher characterizations -/

theorem globMatch_literal (p : List Char) (hs : '*' ∉ p) (hq : '?' ∉ p) :
    ∀ s : List Char, globMatch p s = true ↔ p = s := by
  induction p with
  | nil =>
    intro s
    cases s <;> simp [globMatch]
  | cons c ps ih =>
    intro s
    have hc : c ≠ '*' := fun h => hs (h ▸ List.mem_cons_self c ps)
    have hcq : c ≠ '?' := fun h => hq (h ▸ List.mem_cons_self c ps)
    have hs' : '*' ∉ ps := fun h => hs (List.mem_cons_of_mem _ h)
    have hq' : '?' ∉ ps := fun h => hq (List.mem_cons_of_mem _ h)
    cases s with
    | nil =>
      simp [globMatch.eq_3 c ps hc]
    | cons d cs =>
      simp [globMatch.eq_4 c ps d cs hc, hcq, ih hs' hq' cs]

theorem globMatch_prefix_star (pre : List Char) (hs : '*' ∉ pre) (hq : '?' ∉ pre) :
    ∀ s : List Char, globMatch (pre ++ ['*']) s = true ↔ pre <+: s := by
  induction pre with
  | nil =>
    intro s
    simp [globMatch]
  | cons c ps ih =>
    intro s
    have hc : c ≠ '*' := fun h => hs (h ▸ List.mem_cons_self c ps)
    have hcq : c ≠ '?' := fun h => hq (h ▸ List.mem_cons_self c ps)
    have hs' : '*' ∉ ps := fun h => hs (List.mem_cons_of_mem _ h)
    have hq' : '?' ∉ ps := fun h => hq (List.mem_cons_of_mem _ h)
    rw [List.cons_append]
    cases s with
    | nil =>
      rw [globMatch.eq_3 c (ps ++ ['*']) hc]
      simp only [Bool.false_eq_true, false_iff, List.prefix_nil]
      exact List.cons_ne_nil c ps
    | cons d cs =>
      rw [globMatch.eq_4 c (ps ++ ['*']) d cs hc]
      simp [hcq, ih hs' hq' cs, List.cons_prefix_cons]

theorem check_simple_feature_literal (fs : FsDir) (pat : String)
    (hs : '*' ∉ pat.toList) (hq : '?' ∉ pat.toList) :
    check_simple_feature fs pat = true ↔ pat ∈ fs.rootNames := by
  simp only [check_simple_feature, List.any_eq_true]
  constructor
  · rintro ⟨nm, h1, h2⟩
    rw [globMatch_literal _ hs hq] at h2
    have : pat = nm := String.ext h2
    simpa [this] using h1
  · intro h
    exact ⟨pat, h, by rw [globMatch_literal _ hs hq]⟩

theorem matchComponents_blobs_sha (p : List String) :
    matchComponents ["blobs".toList, "sha256-*".toList] p = true ↔
      ∃ b : String, p = ["blobs", b] ∧ "sha256-".toList <+: b.toList := by
  match p with
  | [] => simp [matchComponents]
  | [a] => simp [matchComponents]
  | a :: b :: c :: rest => simp [matchComponents]
  | [a, b] =>
    have hlit := globMatch_literal "blobs".toList (by decide) (by decide) a.toList
    have hstar := globMatch_prefix_star "sha256-".toList (by decide) (by decide) b.toList
    have heq : ("sha256-*".toList : List Char) = "sha256-".toList ++ [Char.ofNat 42] := rfl
    simp only [matchComponents, heq, List.zip] at *
    simp only [List.zipWith, List.all_cons, List.all_nil, Bool.and_true, Bool.and_eq_true,
      hlit, hstar]
    constructor
    · rintro ⟨-, h1, h2⟩
      refine ⟨b, ?_, h2⟩
      have : "blobs" = a := String.ext h1
      simp [this]
    · rintro ⟨b2, hb, h2⟩
      cases hb
      exact ⟨rfl, rfl, h2⟩

/-! ## Claim C4 -/

/-- C4: the claim states that `discover()` classifies a directory as Ollama
layout when it contains `manifests/` and EITHER `blobs/` OR a
`blobs/sha256-*` entry.  Counterexample: a directory holding `manifests/`
and an empty `blobs/` satisfies the claimed condition but
`directory_has_features` demands ALL three features, so `discover()` does
not take the Ollama path there. -/
theorem C4_spec_disjunction_counterexample :
    specOllamaLayout ⟨[["manifests"], ["blobs"]]⟩ = true ∧
      isOllamaLayout ⟨[["manifests"], ["blobs"]]⟩ = false := by
  decide

/-- C4 (amended): `discover()` classifies a candidate directory as an
Ollama layout exactly when it contains a `manifests/` entry, a `blobs/`
entry AND an entry matching `blobs/sha256-*` — the conjunction of all three
features, not a disjunction. -/
theorem C4_ollama_layout_conjunction (fs : FsDir) :
    isOllamaLayout fs = true ↔
      ("manifests" ∈ fs.rootNames ∧ "blobs" ∈ fs.rootNames ∧
        ∃ b : String, ["blobs", b] ∈ fs.existingPaths ∧
          "sha256-".toList <+: b.toList) := by
  have h1 : check_single_feature fs "manifests" = true ↔ "manifests" ∈ fs.rootNames :=
    check_simple_feature_literal fs "manifests" (by decide) (by decide)
  have h2 : check_single_feature fs "blobs" = true ↔ "blobs" ∈ fs.rootNames :=
    check_simple_feature_literal fs "blobs" (by decide) (by decide)
  have h3 : check_single_feature fs "blobs/sha256-*" = true ↔
      (∃ b : String, ["blobs", b] ∈ fs.existingPaths ∧
        "sha256-".toList <+: b.toList) := by
    show check_path_feature fs "blobs/sha256-*" = true ↔ _
    have hsplit : splitSlash "blobs/sha256-*".toList =
        ["blobs".toList, "sha256-*".toList] := rfl
    simp only [check_path_feature, hsplit, List.any_eq_true]
    constructor
    · rintro ⟨p, hp, hm⟩
      obtain ⟨b, rfl, hpre⟩ := (matchComponents_blobs_sha p).mp hm
      exact ⟨b, hp, hpre⟩
    · rintro ⟨b, hb, hpre⟩
      exact ⟨["blobs", b], hb, (matchComponents_blobs_sha _).mpr ⟨b, rfl, hpre⟩⟩
  show directory_has_features fs _ = true ↔ _
  simp only [directory_has_features, List.all_cons, List.all_nil, Bool.and_true,
    Bool.and_eq_true, h1, h2, h3]

/-! ## Claims C9 and C10: the generic walk -/

/-- C9: a candidate directory containing exactly `models/llama.bin` (10 MB,
any content) and `models/big.gguf` (80 MB, leading `GGUF` magic) yields
exactly one record, named `big` with format `Gguf`: the sub-50 MB file is
skipped before any sniff, and the GGUF magic classifies the other
regardless of extension. -/
theorem C9_generic_walk_example (validJson : List Nat → Bool)
    (candidate : List String) (smallBytes : List Nat) :
    discoverGeneric validJson candidate
      [⟨["models", "llama.bin"], 10 * 1024 * 1024, smallBytes⟩,
       ⟨["models", "big.gguf"], 80 * 1024 * 1024, [0x47, 0x47, 0x55, 0x46]⟩]
      = [{ format := .Gguf, path := candidate, name := "big",
           size := 80 * 1024 * 1024, template := none }] := by
  simp [discoverGeneric, discoverStep, check_gguf_format, FileEntry.fileName, fileStem]
  decide

theorem mem_foldl_discoverStep (validJson : List Nat → Bool) (candidate : List String) :
    ∀ (files : List FileEntry) (acc : List Model) (m : Model),
      m ∈ files.foldl (discoverStep validJson candidate) acc →
      m ∈ acc ∨ (m.path = candidate ∧ ∃ f ∈ files,
        m.name = String.mk (fileStem f.fileName.toList) ∧ m.size = f.size) := by
  intro files
  induction files with
  | nil => intro acc m hm; exact Or.inl hm
  | cons f fs ih =>
    intro acc m hm
    rw [List.foldl_cons] at hm
    rcases ih (discoverStep validJson candidate acc f) m hm with h | ⟨hp, g, hg, hrest⟩
    · unfold discoverStep at h
      split at h
      · exact Or.inl h
      · split at h
        · rcases List.mem_append.mp h with h' | h'
          · exact Or.inl h'
          · simp only [List.mem_singleton] at h'
            subst h'
            exact Or.inr ⟨rfl, f, List.mem_cons_self f fs, rfl, rfl⟩
        · split at h
          · rcases List.mem_append.mp h with h' | h'
            · exact Or.inl h'
            · simp only [List.mem_singleton] at h'
              subst h'
              exact Or.inr ⟨rfl, f, List.mem_cons_self f fs, rfl, rfl⟩
          · exact Or.inl h
    · exact Or.inr ⟨hp, g, List.mem_cons_of_mem f hg, hrest⟩

/-- C10: every record the generic walk produces carries the candidate
search directory as its `path`, while its `name` and `size` come from the
matched weight file (file stem and byte length). -/
theorem C10_generic_walk_record_fields (validJson : List Nat → Bool)
    (candidate : List String) (files : List FileEntry) (m : Model)
    (hm : m ∈ discoverGeneric validJson candidate files) :
    m.path = candidate ∧ ∃ f ∈ files,
      m.name = String.mk (fileStem f.fileName.toList) ∧ m.size = f.size := by
  rcases mem_foldl_discoverStep validJson candidate files [] m hm with h | h
  · cases h
  · exact h

/-- C10, witnessed at the C9-style directory with one 80 MB GGUF file. -/
theorem C10_generic_walk_witness :
    ({ format := .Gguf, path := ["d"], name := "big",
       size := 80 * 1024 * 1024, template := none } : Model).path = ["d"] ∧
    ∃ f ∈ [(⟨["models", "big.gguf"], 80 * 1024 * 1024,
            [0x47, 0x47, 0x55, 0x46]⟩ : FileEntry)],
      ({ format := .Gguf, path := ["d"], name := "big",
         size := 80 * 1024 * 1024, template := none } : Model).name
          = String.mk (fileStem f.fileName.toList) ∧
      ({ format := .Gguf, path := ["d"], name := "big",
         size := 80 * 1024 * 1024, template := none } : Model).size = f.size :=
  C10_generic_walk_record_fields (fun _ => false) ["d"]
    [⟨["models", "big.gguf"], 80 * 1024 * 1024, [0x47, 0x47, 0x55, 0x46]⟩]
    _ (by decide)

/-! ## Claim C1: what `infer` returns -/

/-- C1: the claim states that `infer` returns the full generated text —
the concatenation of every fragment the token sink receives — for every
backend.  On the Transformers backend the sink does receive each fragment
once, in order, but `TransformersEngine::infer` returns the request UUID
(`Ok(req_id)`, `hf.rs:386`), not the concatenation: evaluated on the
daemon trace `["Hello", " world"]` with request id `7f3a-id`. -/
theorem C1_transformers_infer_returns_request_id :
    transformersInfer "7f3a-id" [.token "Hello", .token " world", .done]
      = ("7f3a-id", ["Hello", " world"]) ∧
    "7f3a-id" ≠ String.join ["Hello", " world"] := by
  decide

/-! ## Claim C3: streaming vs non-streaming -/

/-- C3: the claim states that the concatenation of all streamed fragments
equals the non-streaming result of the same endpoint.  On `/v1/completions`
with the Transformers backend and a deterministic trace producing `Hello`,
the streamed concatenation is `Hello` but the non-streaming body text is
the request id `cmpl-7f3a` that `infer` returns. -/
theorem C3_stream_nonstream_divergence :
    openaiCompletionStreamText [.token "Hel", .token "lo", .done] = "Hello" ∧
    openaiCompletionNonStreamText "cmpl-7f3a" [.token "Hel", .token "lo", .done]
      = "cmpl-7f3a" ∧
    openaiCompletionStreamText [.token "Hel", .token "lo", .done] ≠
      openaiCompletionNonStreamText "cmpl-7f3a" [.token "Hel", .token "lo", .done] := by
  refine ⟨rfl, rfl, ?_⟩
  decide

/-! ## Claim C2: HTTP error mapping -/

/-- C2: the claim states that on either dialect a model name absent from
discovery yields 400, and a backend load or infer failure yields 500 with
the backend's message verbatim.  Three concrete refutations: the native
dialect maps a not-found pool error to 500, not 400; the OpenAI dialect
maps a backend LOAD failure to 400, not 500; and the OpenAI dialect
prefixes the infer failure message with `Inference error: ` rather than
passing it verbatim. -/
theorem C2_error_status_counterexample :
    (tlamaInferResponse (.error (.notFound "m" "Model m not found")) (.ok "")).status
        = 500 ∧
    (tlamaInferResponse (.error (.notFound "m" "Model m not found")) (.ok "")).status
        ≠ 400 ∧
    (openaiCompletionResponse (.error (.loadFailed "m" "corrupt file")) (.ok "")).status
        = 400 ∧
    (openaiCompletionResponse (.error (.loadFailed "m" "corrupt file")) (.ok "")).status
        ≠ 500 ∧
    (openaiCompletionResponse (.ok ()) (.error "boom")).body ≠ "boom" := by
  decide

/-- C2 (amended): the two dialects map errors differently.  Native dialect:
every `get_model` failure (not-found included) and every infer failure
yields 500, with the pool's/backend's message as the body.  OpenAI dialect:
every `get_model` failure (backend load failures included) yields 400 with
a `Model not found: ` prefix; a template render failure yields 400 with a
`Template rendering error: ` prefix; an infer failure yields 500 with an
`Inference error: ` prefix. -/
theorem C2_error_mapping (pe : PoolError) (e p t : String)
    (inf : Except String String) (ren : Except String String) :
    tlamaInferResponse (.error pe) inf = ⟨500, poolErrMsg pe⟩ ∧
    tlamaInferResponse (.ok ()) (.error e) = ⟨500, e⟩ ∧
    tlamaInferResponse (.ok ()) (.ok t) = ⟨200, t⟩ ∧
    openaiCompletionResponse (.error pe) inf
      = ⟨400, "Model not found: " ++ poolErrMsg pe⟩ ∧
    openaiCompletionResponse (.ok ()) (.error e)
      = ⟨500, "Inference error: " ++ e⟩ ∧
    openaiCompletionResponse (.ok ()) (.ok t) = ⟨200, t⟩ ∧
    openaiChatResponse (.error pe) ren inf
      = ⟨400, "Model not found: " ++ poolErrMsg pe⟩ ∧
    openaiChatResponse (.ok ()) (.error e) inf
      = ⟨400, "Template rendering error: " ++ e⟩ ∧
    openaiChatResponse (.ok ()) (.ok p) (.error e)
      = ⟨500, "Inference error: " ++ e⟩ ∧
    openaiChatResponse (.ok ()) (.ok p) (.ok t) = ⟨200, t⟩ :=
  ⟨rfl, rfl, rfl, rfl, rfl, rfl, rfl, rfl, rfl, rfl⟩

/-! ## Claim C6: terminal streaming frames -/

/-- C6: the claim states that on either dialect the emitted frame sequence
is never empty and ends with a `finish_reason: "stop"` frame, including
when infer errors.  On the OpenAI chat-completions streaming path an infer
error makes the task return before the terminal frame: with an immediate
error the stream is empty. -/
theorem C6_chat_error_stream_counterexample :
    openaiChatFrames [] (.error "Inference failed") = [] ∧
    (openaiChatFrames [] (.error "Inference failed")).getLast? = none :=
  ⟨rfl, rfl⟩

/-- C6 (amended): the native dialect and OpenAI completions always emit a
nonempty frame sequence ending in the `stop` frame, even when infer errors
(both discard the infer result); OpenAI chat completions does so only when
infer succeeds — on error it emits exactly the token frames, with no
terminal frame. -/
theorem C6_terminal_stop_frames (frags : List String) (t e : String) :
    (tlamaStreamFrames frags ≠ [] ∧
      (tlamaStreamFrames frags).getLast? = some ⟨"", true, some "stop"⟩) ∧
    (openaiCompletionFrames frags ≠ [] ∧
      (openaiCompletionFrames frags).getLast? = some ⟨"", some "stop"⟩) ∧
    (openaiChatFrames frags (.ok t) ≠ [] ∧
      (openaiChatFrames frags (.ok t)).getLast? = some ⟨"", some "stop"⟩) ∧
    openaiChatFrames frags (.error e) = frags.map (fun s => ⟨s, none⟩) := by
  refine ⟨⟨?_, ?_⟩, ⟨?_, ?_⟩, ⟨?_, ?_⟩, by simp [openaiChatFrames]⟩
  · simp [tlamaStreamFrames]
  · simp [tlamaStreamFrames, List.getLast?_concat]
  · simp [openaiCompletionFrames]
  · have h : openaiCompletionFrames frags =
        (⟨"", none⟩ :: frags.map (fun t => ⟨t, none⟩)) ++ [⟨"", some "stop"⟩] := by
      simp [openaiCompletionFrames]
    rw [h, List.getLast?_concat]
  · simp [openaiChatFrames]
  · simp [openaiChatFrames, List.getLast?_concat]

/-! ## Claim C7: unload then reload gives a fresh handle -/

theorem lookupAL_filter_out (name : String) (m : List (String × Nat)) :
    lookupAL name (m.filter (fun p => !(p.1 == name))) = none := by
  unfold lookupAL
  rw [List.find?_eq_none.mpr]
  · rfl
  · intro x hx
    have := List.of_mem_filter hx
    simpa using this

/-- C7: for a model name present in the pool, `unload(name)` followed by
`get_model(name)` — whenever it returns a handle — performs a fresh
backend load: the returned handle identity is the fresh `nextId`, distinct
from every handle issued before the unload (all of which precede
`nextId`). -/
theorem C7_unload_reload_fresh_handle (disc : List String)
    (loadErr : Option String) (σ : PoolState) (name : String)
    (prior : List Nat) (h0 : Nat)
    (hpresent : lookupAL name σ.map = some h0)
    (hprior : ∀ h ∈ prior, h < σ.nextId)
    (h' : Nat) (σ' : PoolState)
    (hres : getModel disc loadErr (unloadModel σ name) name = .ok (h', σ')) :
    h' ∉ prior ∧ h' = σ.nextId := by
  clear hpresent
  unfold getModel unloadModel at hres
  rw [lookupAL_filter_out] at hres
  split at hres
  next i heq => exact absurd heq (by simp)
  next heq =>
    split at hres
    · cases loadErr with
      | some e => exact absurd hres (by simp)
      | none =>
        simp only [Except.ok.injEq, Prod.mk.injEq] at hres
        obtain ⟨hh, -⟩ := hres
        subst hh
        exact ⟨fun hmem => lt_irrefl _ (hprior _ hmem), rfl⟩
    · exact absurd hres (by simp)

/-- C7, witnessed: pool holding handle 0 for `m`; after unload the reload
returns handle 1, not 0. -/
theorem C7_unload_reload_witness :
    (1 : Nat) ∉ [0] ∧ (1 : Nat) = (⟨[("m", 0)], 1⟩ : PoolState).nextId :=
  C7_unload_reload_fresh_handle ["m"] none ⟨[("m", 0)], 1⟩ "m" [0] 0
    (by decide) (by decide) 1 ⟨[("m", 1)], 2⟩ rfl

/-! ## Claim C8: hub-cache tokenizer config handling -/

/-- C8: the claim states that a snapshot whose `tokenizer_config.json` is
missing yields no discovered entry.  The gate is per MODEL DIRECTORY, not
per snapshot: here `snap2` has no tokenizer config, the gate passes via
`snap1`, and `snap2` still yields an entry — with the default template. -/
theorem C8_missing_tokenizer_config_counterexample :
    discover_hf_models "DT" [⟨"models--a--b", true,
      [⟨"snap1", true, true, .parsed (some "T1") none, 3, 60 * 1024 * 1024⟩,
       ⟨"snap2", true, true, .missing, 3, 60 * 1024 * 1024⟩]⟩]
    = [⟨.Transformers, ["models--a--b", "snapshots", "snap1"], "a/b",
        60 * 1024 * 1024, some "T1"⟩,
       ⟨.Transformers, ["models--a--b", "snapshots", "snap2"], "a/b",
        60 * 1024 * 1024, some "DT"⟩] := by
  decide

/-- C8 (amended): a hub model directory NONE of whose snapshot directories
contains `tokenizer_config.json` is excluded wholly; a gated snapshot whose
`tokenizer_config.json` parses but carries neither a `chat_template` field
nor a nested `tokenizer.chat_template` field yields an entry whose template
is the built-in default template (a snapshot individually missing the file
behaves the same way whenever the directory gate passes via another
snapshot). -/
theorem C8_hub_gate_and_default_template (defTpl : String) (d : HubModelDir)
    (dirName : String) (s : Snapshot) :
    (d.snapshots.any (fun x => x.isDir && x.tokenizerConfig.present) = false →
      discover_hf_models defTpl [d] = []) ∧
    (s.isDir = true → s.tokenizerConfig = .parsed none none → s.fileCount ≠ 0 →
      50 * 1024 * 1024 ≤ s.totalSize →
      hubSnapshotRecord defTpl dirName s =
        some ⟨.Transformers, [dirName, "snapshots", s.name], parseHubName dirName,
              s.totalSize, some defTpl⟩) := by
  constructor
  · intro hno
    have hgate : hubDirGate d = false := by
      unfold hubDirGate
      rw [hno]
      simp
    simp [discover_hf_models, hgate]
  · intro hdir htc hfc hsz
    simp [hubSnapshotRecord, hdir, snapshotChatTemplate, htc, hfc,
      Nat.not_lt.mpr hsz]

/-- C8, witnessed: a directory whose single snapshot has no tokenizer
config at all is excluded, and a gated snapshot with an empty parsed config
gets the default template. -/
theorem C8_hub_witness :
    discover_hf_models "DT"
      [⟨"models--x--y", true, [⟨"s", true, true, .missing, 1, 60 * 1024 * 1024⟩]⟩]
      = [] ∧
    hubSnapshotRecord "DT" "models--x--y"
      ⟨"s1", true, true, .parsed none none, 2, 52428800⟩ =
      some ⟨.Transformers, ["models--x--y", "snapshots", "s1"], "x/y",
            52428800, some "DT"⟩ :=
  ⟨(C8_hub_gate_and_default_template "DT"
      ⟨"models--x--y", true, [⟨"s", true, true, .missing, 1, 60 * 1024 * 1024⟩]⟩
      "models--x--y" ⟨"s1", true, true, .parsed none none, 2, 52428800⟩).1
      (by decide),
   (C8_hub_gate_and_default_template "DT"
      ⟨"models--x--y", true, [⟨"s", true, true, .missing, 1, 60 * 1024 * 1024⟩]⟩
      "models--x--y" ⟨"s1", true, true, .parsed none none, 2, 52428800⟩).2
      rfl rfl (by decide) (by decide)⟩

/-! ## Claim C5: the concurrent pool invariant -/

theorem poolInv_init (name : String) (n : Nat) :
    PoolInv name n ⟨[], 0, 0, List.replicate n .ready⟩ := by
  refine ⟨Or.inl rfl, by simp, ?_⟩
  simp [poolCredit, List.countP_replicate, TPhase.preLoad]

theorem countP_preLoad_pos (σ : ConcState) (ph : TPhase) (hmem : ph ∈ σ.threads)
    (hp : ph.preLoad = true) : 1 ≤ poolCredit σ := by
  have : 0 < σ.threads.countP (fun ph => ph.preLoad) :=
    List.countP_pos_iff.mpr ⟨ph, hmem, hp⟩
  simpa [poolCredit] using this

theorem poolInv_step (name : String) (n : Nat) (σ : ConcState) (op : PoolOp)
    (h : PoolInv name n σ) : PoolInv name n (stepOp name σ op) := by
  obtain ⟨hmap, hlen, hload⟩ := h
  cases op with
  | unload =>
    refine ⟨?_, hlen, hload⟩
    rcases hmap with h | ⟨v, h⟩ <;> simp [stepOp, PoolMapInv, h]
  | work i =>
    cases hget : σ.threads.get? i with
    | none =>
      rw [List.get?_eq_getElem?] at hget
      have hstep : stepOp name σ (.work i) = σ := by simp [stepOp, hget]
      rw [hstep]
      exact ⟨hmap, hlen, hload⟩
    | some ph =>
      rw [List.get?_eq_getElem?] at hget
      obtain ⟨hi, helem⟩ := List.getElem?_eq_some.mp hget
      have hmem : ph ∈ σ.threads := helem ▸ List.getElem_mem hi
      have hcnt := List.countP_set (fun ph => ph.preLoad) σ.threads i
      cases ph with
      | ready =>
        cases hlook : lookupAL name σ.map with
        | some v =>
          have hstep : stepOp name σ (.work i) =
              { σ with threads := σ.threads.set i (.doneHit v) } := by
            simp [stepOp, hget, hlook]
          rw [hstep]
          refine ⟨hmap, by simpa using hlen, ?_⟩
          have hcr : 1 ≤ poolCredit σ := countP_preLoad_pos σ _ hmem rfl
          have h2 := hcnt (.doneHit v) hi
          rw [helem] at h2
          simp only [show TPhase.ready.preLoad = true from rfl,
            show (TPhase.doneHit v).preLoad = false from rfl] at h2
          simp at h2
          simp only [poolCredit] at *
          show σ.loads + List.countP _ (σ.threads.set i (TPhase.doneHit v)) ≤ n
          rw [h2]
          omega
        | none =>
          have hstep : stepOp name σ (.work i) =
              { σ with threads := σ.threads.set i .loading } := by
            simp [stepOp, hget, hlook]
          rw [hstep]
          refine ⟨hmap, by simpa using hlen, ?_⟩
          have hcr : 1 ≤ poolCredit σ := countP_preLoad_pos σ _ hmem rfl
          have h2 := hcnt .loading hi
          rw [helem] at h2
          simp only [show TPhase.ready.preLoad = true from rfl,
            show TPhase.loading.preLoad = true from rfl] at h2
          simp at h2
          simp only [poolCredit] at *
          show σ.loads + List.countP _ (σ.threads.set i TPhase.loading) ≤ n
          rw [h2]
          omega
      | loading =>
        have hstep : stepOp name σ (.work i) =
            { σ with nextId := σ.nextId + 1, loads := σ.loads + 1,
                     threads := σ.threads.set i (.inserting σ.nextId) } := by
          simp [stepOp, hget]
        rw [hstep]
        refine ⟨hmap, by simpa using hlen, ?_⟩
        have hcr : 1 ≤ poolCredit σ := countP_preLoad_pos σ _ hmem rfl
        have h2 := hcnt (.inserting σ.nextId) hi
        rw [helem] at h2
        simp only [show TPhase.loading.preLoad = true from rfl,
          show (TPhase.inserting σ.nextId).preLoad = false from rfl] at h2
        simp at h2
        simp only [poolCredit] at *
        show σ.loads + 1 + List.countP _ (σ.threads.set i (TPhase.inserting σ.nextId)) ≤ n
        rw [h2]
        omega
      | inserting v =>
        have hstep : stepOp name σ (.work i) =
            { σ with map := insertAL name v σ.map,
                     threads := σ.threads.set i (.doneIns v) } := by
          simp [stepOp, hget]
        rw [hstep]
        refine ⟨?_, by simpa using hlen, ?_⟩
        · rcases hmap with h | ⟨w, h⟩ <;> simp [PoolMapInv, insertAL, h]
        · have h2 := hcnt (.doneIns v) hi
          rw [helem] at h2
          simp only [show (TPhase.inserting v).preLoad = false from rfl,
            show (TPhase.doneIns v).preLoad = false from rfl] at h2
          simp at h2
          simp only [poolCredit] at *
          show σ.loads + List.countP _ (σ.threads.set i (TPhase.doneIns v)) ≤ n
          rw [h2]
          omega
      | doneHit v =>
        have hstep : stepOp name σ (.work i) = σ := by simp [stepOp, hget]
        rw [hstep]
        exact ⟨hmap, hlen, hload⟩
      | doneIns v =>
        have hstep : stepOp name σ (.work i) = σ := by simp [stepOp, hget]
        rw [hstep]
        exact ⟨hmap, hlen, hload⟩

theorem poolDoneInv_step (name : String) (σ : ConcState) (i : Nat)
    (hd : PoolDoneInv name σ) : PoolDoneInv name (stepOp name σ (.work i)) := by
  cases hget : σ.threads.get? i with
  | none =>
    rw [List.get?_eq_getElem?] at hget
    have hstep : stepOp name σ (.work i) = σ := by simp [stepOp, hget]
    rw [hstep]
    exact hd
  | some ph =>
    rw [List.get?_eq_getElem?] at hget
    cases ph with
    | ready =>
      cases hlook : lookupAL name σ.map with
      | some v =>
        have hstep : stepOp name σ (.work i) =
            { σ with threads := σ.threads.set i (.doneHit v) } := by
          simp [stepOp, hget, hlook]
        rw [hstep]
        intro _ hmapeq
        rw [show ({ σ with threads := σ.threads.set i (.doneHit v) } : ConcState).map
          = σ.map from rfl] at hmapeq
        rw [hmapeq] at hlook
        simp [lookupAL] at hlook
      | none =>
        have hstep : stepOp name σ (.work i) =
            { σ with threads := σ.threads.set i .loading } := by
          simp [stepOp, hget, hlook]
        rw [hstep]
        rintro ⟨ph, hphmem, hphdone⟩
        rcases List.mem_or_eq_of_mem_set hphmem with hin | rfl
        · exact hd ⟨ph, hin, hphdone⟩
        · exact absurd hphdone (by simp [TPhase.isDone])
    | loading =>
      have hstep : stepOp name σ (.work i) =
          { σ with nextId := σ.nextId + 1, loads := σ.loads + 1,
                   threads := σ.threads.set i (.inserting σ.nextId) } := by
        simp [stepOp, hget]
      rw [hstep]
      rintro ⟨ph, hphmem, hphdone⟩
      rcases List.mem_or_eq_of_mem_set hphmem with hin | rfl
      · exact hd ⟨ph, hin, hphdone⟩
      · exact absurd hphdone (by simp [TPhase.isDone])
    | inserting v =>
      have hstep : stepOp name σ (.work i) =
          { σ with map := insertAL name v σ.map,
                   threads := σ.threads.set i (.doneIns v) } := by
        simp [stepOp, hget]
      rw [hstep]
      intro _
      exact List.cons_ne_nil _ _
    | doneHit v =>
      have hstep : stepOp name σ (.work i) = σ := by simp [stepOp, hget]
      rw [hstep]
      exact hd
    | doneIns v =>
      have hstep : stepOp name σ (.work i) = σ := by simp [stepOp, hget]
      rw [hstep]
      exact hd

theorem poolInv_foldl (name : String) (n : Nat) :
    ∀ (ops : List PoolOp) (σ : ConcState), PoolInv name n σ →
      PoolInv name n (ops.foldl (stepOp name) σ) := by
  intro ops
  induction ops with
  | nil => intro σ h; exact h
  | cons op rest ih =>
    intro σ h
    rw [List.foldl_cons]
    exact ih _ (poolInv_step name n σ op h)

theorem poolDoneInv_foldl (name : String) :
    ∀ (ops : List PoolOp) (σ : ConcState), (∀ op ∈ ops, op ≠ PoolOp.unload) →
      PoolDoneInv name σ → PoolDoneInv name (ops.foldl (stepOp name) σ) := by
  intro ops
  induction ops with
  | nil => intro σ _ h; exact h
  | cons op rest ih =>
    intro σ hno h
    rw [List.foldl_cons]
    have hop : op ≠ PoolOp.unload := hno op (List.mem_cons_self op rest)
    have hstep : PoolDoneInv name (stepOp name σ op) := by
      cases op with
      | unload => exact absurd rfl hop
      | work i => exact poolDoneInv_step name σ i h
    exact ih _ (fun o ho => hno o (List.mem_cons_of_mem op ho)) hstep

/-- C5: in every state reachable by interleaving `get_model` callers and
`unload` calls the pool map holds at most one entry for the requested name;
the number of backend loads never exceeds the number of callers; and when
`n ≥ 1` callers for a previously-unseen name have all completed (with no
interleaved unload) the map holds exactly one entry for that name. -/
theorem C5_pool_single_entry_bounded_loads (name : String) (n : Nat)
    (ops : List PoolOp) :
    countKey name (runPool name n ops).map ≤ 1 ∧
    (runPool name n ops).loads ≤ n ∧
    ((∀ op ∈ ops, op ≠ PoolOp.unload) →
      (∀ ph ∈ (runPool name n ops).threads, ph.isDone = true) → 1 ≤ n →
      countKey name (runPool name n ops).map = 1) := by
  have hinv : PoolInv name n (runPool name n ops) :=
    poolInv_foldl name n ops _ (poolInv_init name n)
  obtain ⟨hmap, hlen, hload⟩ := hinv
  refine ⟨?_, ?_, ?_⟩
  · rcases hmap with h | ⟨v, h⟩ <;> simp [countKey, h]
  · omega
  · intro hno hdone hn
    have hd : PoolDoneInv name (runPool name n ops) := by
      refine poolDoneInv_foldl name ops _ hno ?_
      rintro ⟨ph, hmem, hdone1⟩
      rw [List.eq_of_mem_replicate hmem] at hdone1
      exact absurd hdone1 (by simp [TPhase.isDone])
    have hne : (runPool name n ops).threads ≠ [] := by
      intro he
      rw [he] at hlen
      simp at hlen
      omega
    obtain ⟨ph, hmem⟩ := List.exists_mem_of_ne_nil _ hne
    have hmapne : (runPool name n ops).map ≠ [] := hd ⟨ph, hmem, hdone ph hmem⟩
    rcases hmap with h | ⟨v, h⟩
    · exact absurd h hmapne
    · simp [countKey, h]

/-- C5, witnessed on two callers racing through a duplicate load: after the
schedule completes the pool holds exactly one entry. -/
theorem C5_pool_witness :
    countKey "m" (runPool "m" 2
      [.work 0, .work 1, .work 0, .work 1, .work 0, .work 1]).map = 1 :=
  (C5_pool_single_entry_bounded_loads "m" 2
    [.work 0, .work 1, .work 0, .work 1, .work 0, .work 1]).2.2
    (by decide) (by decide) (by decide)

end Tllama
